import Mathlib

/-!
# CryptoDash `static/js/main.js` — shallow embedding and verification

This file embeds the price-refresh pipeline of `src/static/js/main.js` in
Lean 4 and settles the specification claims about it.

Modelling conventions:
* JavaScript numbers are modelled as exact rationals (`ℚ`); IEEE-754
  binary64 artifacts (precision loss, `toFixed`'s exponential fallback at
  magnitudes ≥ 1e21) are outside the model.
* `Number.prototype.toFixed(f)` is modelled as exact fixed-point decimal
  rendering: sign of the argument, then the decimal digits of the absolute
  value rounded half-away-from-zero to `f` fractional digits.
* `Intl.NumberFormat('en-US', {style: 'currency', ...})` is modelled as a
  leading `$`, a comma-grouped integer part and a fixed number of
  fractional digits, with the same rounding.
* The DOM is modelled as a list of element records; a loading spinner
  child (`[data-loading="true"]`) is modelled by a counter per element,
  since `showLoadingIndicators` appends one spinner and
  `hideLoadingIndicators` removes at most one.
-/

namespace CryptoDash

/-! ## Generic character/list helpers -/

/-- Pad a character list on the left with `c` up to length `k`. -/
def leftPad (c : Char) (k : ℕ) (l : List Char) : List Char :=
  List.replicate (k - l.length) c ++ l

/-- Decimal digits of `n`, least significant first, driven by fuel so the
definition reduces inside the kernel. -/
def digitCharsAux : ℕ → ℕ → List Char
  | 0, _ => []
  | fuel + 1, n => if n = 0 then [] else Char.ofNat (48 + n % 10) :: digitCharsAux fuel (n / 10)

/-- Decimal digit characters of `n`, most significant first; `0 ↦ "0"`. -/
def natDigitChars (n : ℕ) : List Char :=
  if n = 0 then ['0'] else (digitCharsAux (n + 1) n).reverse

/-- The value `|x|·10^f` rounded half-away-from-zero to a natural number: the digit
stream that `toFixed`-style rendering at `f` fractional digits prints. -/
def roundAbsTo (x : ℚ) (f : ℕ) : ℕ :=
  (⌊|x| * (10 : ℚ) ^ f + 1/2⌋).toNat

/-- Thousands grouping on a reversed digit list: after every third
character insert a comma. -/
def group3Aux : List Char → List Char
  | a :: b :: c :: d :: rest => a :: b :: c :: ',' :: group3Aux (d :: rest)
  | l => l

/-- The `en-US` thousands grouping of an integer digit string. -/
def group3 (l : List Char) : List Char :=
  (group3Aux l.reverse).reverse

/-- Render the digit stream `N` with `f` of its digits after the decimal
point (the digit-level core of `toFixed`). -/
def fixedRender (N f : ℕ) : List Char :=
  let ds := leftPad '0' (f + 1) (natDigitChars N)
  let k := ds.length - f
  ds.take k ++ if f = 0 then [] else '.' :: ds.drop k

/-- Model of `Number.prototype.toFixed(f)` (exact-decimal version). -/
def toFixedL (x : ℚ) (f : ℕ) : List Char :=
  (if x < 0 then ['-'] else []) ++ fixedRender (roundAbsTo x f) f

/-- Digit-level core of the `en-US` currency format: `$`, grouped integer
part, `f > 0` fractional digits. -/
def currencyRender (N f : ℕ) : List Char :=
  let ds := leftPad '0' (f + 1) (natDigitChars N)
  let k := ds.length - f
  '$' :: (group3 (ds.take k) ++ '.' :: ds.drop k)

/-- Model of `Intl.NumberFormat('en-US', {style:'currency', currency:'USD',
minimumFractionDigits: f, maximumFractionDigits: f}).format x` for `f > 0`. -/
def currencyL (x : ℚ) (f : ℕ) : List Char :=
  (if x < 0 then ['-'] else []) ++ currencyRender (roundAbsTo x f) f

/-- Digit-level core of `Number.prototype.toLocaleString()` under `en-US`
defaults: `N` is the value scaled by `10^3` and rounded; grouped integer
part, at most 3 fractional digits, trailing fractional zeros trimmed. -/
def localeRender (N : ℕ) : List Char :=
  let frac := leftPad '0' 3 (natDigitChars (N % 1000))
  let trimmed := (frac.reverse.dropWhile (fun c => c = '0')).reverse
  group3 (natDigitChars (N / 1000)) ++ (if trimmed = [] then [] else '.' :: trimmed)

/-- Model of `Number.prototype.toLocaleString()` (`en-US` defaults). -/
def toLocaleStringL (x : ℚ) : List Char :=
  (if x < 0 then ['-'] else []) ++ localeRender (roundAbsTo x 3)

/-! ## The formatters of `main.js` -/

/-- Source `formatPrice` (main.js lines 211–227): currency with 2 fractional
digits for `price >= 1`, otherwise 6. -/
def formatPrice (price : ℚ) : String :=
  if 1 ≤ price then String.mk (currencyL price 2) else String.mk (currencyL price 6)

/-- Character-level body of `formatPercentage` (main.js lines 230–233):
`sign = percentage >= 0 ? '+' : ''` followed by `toFixed(2)` and `%`. -/
def formatPercentageL (percentage : ℚ) : List Char :=
  (if 0 ≤ percentage then ['+'] else []) ++ toFixedL percentage 2 ++ ['%']

/-- Source `formatPercentage` (main.js lines 230–233). -/
def formatPercentage (percentage : ℚ) : String :=
  String.mk (formatPercentageL percentage)

/-- Character-level body of `formatLargeNumber` (main.js lines 236–247). -/
def formatLargeNumberL (number : ℚ) : List Char :=
  if 1e12 ≤ number then toFixedL (number / 1e12) 1 ++ ['T']
  else if 1e9 ≤ number then toFixedL (number / 1e9) 1 ++ ['B']
  else if 1e6 ≤ number then toFixedL (number / 1e6) 1 ++ ['M']
  else if 1e3 ≤ number then toFixedL (number / 1e3) 1 ++ ['K']
  else toLocaleStringL number

/-- Source `formatLargeNumber` (main.js lines 236–247). -/
def formatLargeNumber (number : ℚ) : String :=
  String.mk (formatLargeNumberL number)

/-! ## Fractional-digit counting on rendered strings -/

/-- The characters after the last `'.'` of the string (the whole string
when no dot occurs). -/
def afterLastDot (l : List Char) : List Char :=
  (l.reverse.takeWhile (fun c => c != '.')).reverse

/-- Number of fractional digits of a rendered number: the length of the
digit run immediately after the last decimal point. -/
def fracDigitCount (l : List Char) : ℕ :=
  ((afterLastDot l).takeWhile Char.isDigit).length

/-! ## DOM model for the price-refresh pipeline -/

/-- One fetched quote: `{usd, usd_24h_change}`. -/
structure Quote where
  usd : ℚ
  usd24hChange : ℚ
deriving Repr

/-- A DOM element as the pipeline sees it: the optional `data-coin-id`
tag, its class list, its text content, and the number of attached
`[data-loading="true"]` spinner children. -/
structure Elem where
  coinId : Option String
  classes : List String
  text : String
  loadingMarkers : ℕ
deriving Repr, DecidableEq

/-- A toast raised through `showNotification` (message, type, duration). -/
structure Notification where
  message : String
  ntype : String
  duration : ℕ
deriving Repr, DecidableEq

/-- The document state the pipeline touches: the elements and the raised
notifications. -/
structure Dom where
  elems : List Elem
  notifications : List Notification
deriving Repr, DecidableEq

/-- Worker for `[...new Set(coinIds)]`: de-duplication keeping first occurrences. -/
def jsSetDedupAux (seen : List String) : List String → List String
  | [] => []
  | x :: xs => if x ∈ seen then jsSetDedupAux seen xs else x :: jsSetDedupAux (x :: seen) xs

/-- Source `[...new Set(coinIds)]` (main.js line 131). -/
def jsSetDedup (l : List String) : List String :=
  jsSetDedupAux [] l

/-- The coin ids read off the `[data-coin-id]` elements, in document
order (main.js line 130). -/
def collectCoinIds (elems : List Elem) : List String :=
  (elems.filter (fun e => e.coinId.isSome)).filterMap (fun e => e.coinId)

/-- Source `showLoadingIndicators` (main.js lines 150–157): append one spinner
child to every element of the captured `[data-coin-id]` node list. -/
def showLoadingIndicators (elems : List Elem) : List Elem :=
  elems.map (fun e =>
    if e.coinId.isSome then { e with loadingMarkers := e.loadingMarkers + 1 } else e)

/-- Source `hideLoadingIndicators` (main.js lines 160–167): remove the first
spinner child of every element of the captured node list, when present. -/
def hideLoadingIndicators (elems : List Elem) : List Elem :=
  elems.map (fun e =>
    if e.coinId.isSome then { e with loadingMarkers := e.loadingMarkers - 1 } else e)

/-- The `prices[coinId]` object-property lookup. -/
def lookupQuote : List (String × Quote) → String → Option Quote
  | [], _ => none
  | (k, v) :: rest, cid => if k = cid then some v else lookupQuote rest cid

/-- Source `el.classList.add(c)`: append the class when absent. -/
def addClass (c : String) (classes : List String) : List String :=
  if c ∈ classes then classes else classes ++ [c]

/-- Source `el.className.replace(/text-(success|danger)/, '')`: drop the first
occurrence of either change-colour class. -/
def removeFirstChangeClass : List String → List String
  | [] => []
  | c :: rest =>
    if c = "text-success" ∨ c = "text-danger" then rest
    else c :: removeFirstChangeClass rest

/-- The per-element body of `updatePriceElements` (main.js lines 189–207).
Setting `textContent` removes all children, so it also clears the loading
markers of the element it writes to. -/
def applyQuoteToElem (prices : List (String × Quote)) (e : Elem) : Elem :=
  match e.coinId with
  | none => e
  | some cid =>
    match lookupQuote prices cid with
    | none => e
    | some q =>
      let e1 :=
        if "price-display" ∈ e.classes then
          { e with text := formatPrice q.usd, loadingMarkers := 0 }
        else e
      if "change-display" ∈ e.classes then
        { e1 with
          text := formatPercentage q.usd24hChange,
          loadingMarkers := 0,
          classes := addClass (if 0 ≤ q.usd24hChange then "text-success" else "text-danger")
            (removeFirstChangeClass e1.classes) }
      else e1

/-- Source `updatePriceElements` (main.js lines 188–208): re-scan all tagged
elements and apply the fetched quotes. -/
def updatePriceElements (prices : List (String × Quote)) (elems : List Elem) : List Elem :=
  elems.map (applyQuoteToElem prices)

/-- Source `updatePrices` (main.js lines 126–147), with the settled outcome of
the `fetchCoinPrices` promise supplied as a function argument (the mock
fetcher in the source always resolves; a real one may reject). Returns the
new document state and the argument passed to the fetcher (`none` when the
fetcher was not invoked). -/
def updatePrices (fetch : List String → Except Unit (List (String × Quote)))
    (d : Dom) : Dom × Option (List String) :=
  let priceElements := d.elems.filter (fun e => e.coinId.isSome)
  if priceElements.length = 0 then (d, none)
  else
    let coinIds := priceElements.filterMap (fun e => e.coinId)
    let uniqueCoinIds := jsSetDedup coinIds
    let elems1 := showLoadingIndicators d.elems
    match fetch uniqueCoinIds with
    | Except.ok prices =>
      ({ d with elems := hideLoadingIndicators (updatePriceElements prices elems1) },
        some uniqueCoinIds)
    | Except.error _ =>
      ({ elems := hideLoadingIndicators elems1,
         notifications := d.notifications ++ [⟨"Failed to update prices", "error", 3000⟩] },
        some uniqueCoinIds)

/-! ## Ticker model (interval lifecycle)

`startPriceUpdates` (main.js lines 117–123), the `visibilitychange`
listener (lines 388–398) and the `beforeunload` listener (lines 411–415)
manipulate the module-global `priceUpdateInterval` handle.  The state
records the current route, the `document.hidden` flag, the next interval
id `setInterval` would hand out (browser ids start at 1, so the handle is
always truthy once set), the ids of the intervals that are still firing,
and the value of the global handle.  `clearInterval` on an id that is not
live is a no-op, exactly as in the browser. -/

/-- Does `sub` occur at the start of `l`? -/
def listStartsWith : List Char → List Char → Bool
  | [], _ => true
  | _ :: _, [] => false
  | c :: cs, x :: xs => c = x && listStartsWith cs xs

/-- Does `sub` occur anywhere in `l`? -/
def occursIn (sub : List Char) : List Char → Bool
  | [] => listStartsWith sub []
  | x :: xs => listStartsWith sub (x :: xs) || occursIn sub xs

/-- Model of `String.prototype.includes`. -/
def stringIncludes (s sub : String) : Bool :=
  occursIn sub.data s.data

/-- The route guard of `startPriceUpdates` (main.js lines 119–120). -/
def pathAllowed (path : String) : Bool :=
  stringIncludes path "/dashboard" || stringIncludes path "/portfolio"

/-- The interval-related page state. -/
structure TickerState where
  path : String
  hidden : Bool
  nextId : ℕ
  active : List ℕ
  handle : Option ℕ
deriving Repr, DecidableEq

/-- The page state before any handler has run. -/
def initState (path : String) (hidden : Bool) : TickerState :=
  ⟨path, hidden, 1, [], none⟩

/-- Source `startPriceUpdates` (main.js lines 117–123): on an allow-listed route,
unconditionally create a new interval and overwrite the handle. -/
def startPriceUpdates (s : TickerState) : TickerState :=
  if pathAllowed s.path then
    { s with
      active := s.active ++ [s.nextId],
      handle := some s.nextId,
      nextId := s.nextId + 1 }
  else s

/-- Source `clearInterval(id)`: stop the interval when it is live, else no-op. -/
def clearIntervalJS (id : ℕ) (s : TickerState) : TickerState :=
  { s with active := s.active.erase id }

/-- Source `if (priceUpdateInterval) clearInterval(priceUpdateInterval)`
(main.js lines 391–393 and 412–414). -/
def clearHandle (s : TickerState) : TickerState :=
  match s.handle with
  | some h => clearIntervalJS h s
  | none => s

/-- The page lifecycle events that drive the ticker. -/
inductive PageEv where
  | domReady
  | visChange (hidden : Bool)
  | unload
deriving Repr, DecidableEq

/-- One event-handler execution: `DOMContentLoaded` calls
`startPriceUpdates` (main.js line 11), `visibilitychange` clears on hidden
and restarts on visible (lines 388–398), `beforeunload` clears (411–415). -/
def stepEv (s : TickerState) : PageEv → TickerState
  | PageEv.domReady => startPriceUpdates s
  | PageEv.visChange b =>
    let s' := { s with hidden := b }
    if b then clearHandle s' else startPriceUpdates s'
  | PageEv.unload => clearHandle s

/-- Run a sequence of page events. -/
def runEvents (s : TickerState) (evs : List PageEv) : TickerState :=
  evs.foldl stepEv s

/-- Browser-realisable event sequences after load: `visibilitychange`
only fires on an actual change of `document.hidden`, and `DOMContentLoaded`
does not fire again. -/
def properFrom : Bool → List PageEv → Bool
  | _, [] => true
  | hidden, PageEv.visChange b :: rest => (b == !hidden) && properFrom b rest
  | hidden, PageEv.unload :: rest => properFrom hidden rest
  | _, PageEv.domReady :: _ => false

/-! ## Notifier model -/

/-- A toast banner in the document. -/
structure Banner where
  message : String
  btype : String
deriving Repr, DecidableEq

/-- The notifier's world: current time, the id `document.createElement`
would give the next banner, the attached banners, and the pending
`setTimeout` callbacks as (fire time, banner id) pairs. -/
structure NotifSys where
  now : ℕ
  nextId : ℕ
  banners : List (ℕ × Banner)
  timers : List (ℕ × ℕ)
deriving Repr, DecidableEq

/-- Source `showNotification(message, type = 'info', duration = 3000)` (main.js
lines 293–310): append the banner to the body and schedule its removal
after `duration`.  The source's default arguments are `'info'` and `3000`;
`showNotificationDefault` below is the all-defaults call. -/
def showNotification (message ntype : String) (duration : ℕ) (s : NotifSys) : NotifSys :=
  { s with
    banners := s.banners ++ [(s.nextId, ⟨message, ntype⟩)],
    timers := s.timers ++ [(s.now + duration, s.nextId)],
    nextId := s.nextId + 1 }

/-- Source call `showNotification(message)` with both defaulted arguments. -/
def showNotificationDefault (message : String) (s : NotifSys) : NotifSys :=
  showNotification message "info" 3000 s

/-- Model of `node.remove()` in a strict DOM variant that faults when the node is no
longer attached (the guard in the source exists to avoid this situation). -/
def domRemoveBanner (id : ℕ) (banners : List (ℕ × Banner)) :
    Except String (List (ℕ × Banner)) :=
  if banners.any (fun b => b.1 = id) then
    Except.ok (banners.filter (fun b => b.1 ≠ id))
  else Except.error "NotFoundError"

/-- The deferred removal callback (main.js lines 305–309):
`if (notification.parentNode) { notification.remove() }`. -/
def notificationTimerFire (id : ℕ) (banners : List (ℕ × Banner)) :
    Except String (List (ℕ × Banner)) :=
  if banners.any (fun b => b.1 = id) then domRemoveBanner id banners
  else Except.ok banners

/-! ## Ticker run invariant -/

/-- The state invariant of proper runs: the live intervals are exactly
what the handle points at (at most one), and none survive while hidden. -/
def TickerInv (s : TickerState) : Prop :=
  (s.active = [] ∨ ∃ h, s.handle = some h ∧ s.active = [h]) ∧
  (s.hidden = true → s.active = [])

example : fracDigitCount ("$1,234.56".data) = 2 := by decide
example : fracDigitCount ("+3.14%".data) = 2 := by decide
example : fracDigitCount ("$999".data) = 0 := by decide

/-! ## Digit lemmas -/

lemma isDigit_ofNat_lt (d : ℕ) (hd : d < 10) : (Char.ofNat (48 + d)).isDigit = true := by
  revert d hd
  decide

lemma isDigit_digitCharsAux (fuel : ℕ) :
    ∀ (n : ℕ), ∀ c ∈ digitCharsAux fuel n, c.isDigit = true := by
  induction fuel with
  | zero =>
    intro n c hc
    simp [digitCharsAux] at hc
  | succ fuel ih =>
    intro n c hc
    by_cases hn : n = 0
    · simp [digitCharsAux, hn] at hc
    · rw [digitCharsAux, if_neg hn] at hc
      rcases List.mem_cons.mp hc with h | h
      · subst h
        exact isDigit_ofNat_lt (n % 10) (Nat.mod_lt n (by norm_num))
      · exact ih (n / 10) c h

lemma isDigit_natDigitChars (n : ℕ) : ∀ c ∈ natDigitChars n, c.isDigit = true := by
  intro c hc
  unfold natDigitChars at hc
  split at hc
  · simp at hc
    subst hc
    decide
  · rw [List.mem_reverse] at hc
    exact isDigit_digitCharsAux (n + 1) n c hc

lemma isDigit_padDigits (k n : ℕ) : ∀ c ∈ leftPad '0' k (natDigitChars n), c.isDigit = true := by
  intro c hc
  rcases List.mem_append.mp hc with h | h
  · rw [List.eq_of_mem_replicate h]
    decide
  · exact isDigit_natDigitChars n c h

lemma length_leftPad (c : Char) (k : ℕ) (l : List Char) :
    (leftPad c k l).length = max k l.length := by
  simp only [leftPad, List.length_append, List.length_replicate]
  omega

/-! ## `fracDigitCount` shape lemmas -/

lemma takeWhile_append_all {α : Type} (p : α → Bool) (l₁ l₂ : List α)
    (h : ∀ a ∈ l₁, p a = true) :
    List.takeWhile p (l₁ ++ l₂) = l₁ ++ List.takeWhile p l₂ := by
  induction l₁ with
  | nil => simp
  | cons x xs ih =>
    simp only [List.cons_append, List.takeWhile_cons]
    simp [h x (List.mem_cons_self x xs), ih (fun a ha => h a (List.mem_cons_of_mem x ha))]

lemma digit_ne_dot (c : Char) (h : c.isDigit = true) : (c != '.') = true := by
  rcases eq_or_ne c '.' with rfl | hne
  · exact absurd h (by decide)
  · simp [hne]

lemma afterLastDot_shape (a b : List Char) (hb : ∀ c ∈ b, (c != '.') = true) :
    afterLastDot (a ++ '.' :: b) = b := by
  unfold afterLastDot
  rw [List.reverse_append, List.reverse_cons, List.append_assoc]
  rw [takeWhile_append_all _ _ _ (fun c hc => hb c (List.mem_reverse.mp hc))]
  simp [List.takeWhile_cons]

lemma fracDigitCount_shape (a b t : List Char)
    (hb : ∀ c ∈ b, c.isDigit = true)
    (ht : ∀ c ∈ t, (c != '.') = true)
    (ht2 : List.takeWhile Char.isDigit t = []) :
    fracDigitCount (a ++ '.' :: (b ++ t)) = b.length := by
  unfold fracDigitCount
  rw [afterLastDot_shape a (b ++ t) (by
    intro c hc
    rcases List.mem_append.mp hc with h | h
    · exact digit_ne_dot c (hb c h)
    · exact ht c h)]
  rw [takeWhile_append_all _ b t hb, ht2]
  simp

lemma fracDigitCount_currencyL (x : ℚ) (f : ℕ) : fracDigitCount (currencyL x f) = f := by
  have hd : ∀ c ∈ (leftPad '0' (f + 1) (natDigitChars (roundAbsTo x f))).drop
      ((leftPad '0' (f + 1) (natDigitChars (roundAbsTo x f))).length - f), c.isDigit = true :=
    fun c hc => isDigit_padDigits (f + 1) (roundAbsTo x f) c (List.drop_subset _ _ hc)
  have hshape := fracDigitCount_shape
    ((if x < 0 then ['-'] else []) ++ '$' :: group3
      ((leftPad '0' (f + 1) (natDigitChars (roundAbsTo x f))).take
        ((leftPad '0' (f + 1) (natDigitChars (roundAbsTo x f))).length - f)))
    ((leftPad '0' (f + 1) (natDigitChars (roundAbsTo x f))).drop
      ((leftPad '0' (f + 1) (natDigitChars (roundAbsTo x f))).length - f))
    [] hd (by simp) rfl
  have hlen : ((leftPad '0' (f + 1) (natDigitChars (roundAbsTo x f))).drop
      ((leftPad '0' (f + 1) (natDigitChars (roundAbsTo x f))).length - f)).length = f := by
    rw [List.length_drop, length_leftPad]
    omega
  have heq : currencyL x f =
      ((if x < 0 then ['-'] else []) ++ '$' :: group3
        ((leftPad '0' (f + 1) (natDigitChars (roundAbsTo x f))).take
          ((leftPad '0' (f + 1) (natDigitChars (roundAbsTo x f))).length - f))) ++
      '.' :: ((leftPad '0' (f + 1) (natDigitChars (roundAbsTo x f))).drop
        ((leftPad '0' (f + 1) (natDigitChars (roundAbsTo x f))).length - f) ++ []) := by
    simp [currencyL, currencyRender, List.append_assoc]
  rw [heq, hshape, hlen]

lemma fracDigitCount_formatPercentageL (x : ℚ) : fracDigitCount (formatPercentageL x) = 2 := by
  have hd : ∀ c ∈ (leftPad '0' 3 (natDigitChars (roundAbsTo x 2))).drop
      ((leftPad '0' 3 (natDigitChars (roundAbsTo x 2))).length - 2), c.isDigit = true :=
    fun c hc => isDigit_padDigits 3 (roundAbsTo x 2) c (List.drop_subset _ _ hc)
  have hshape := fracDigitCount_shape
    ((if 0 ≤ x then ['+'] else []) ++ ((if x < 0 then ['-'] else []) ++
      (leftPad '0' 3 (natDigitChars (roundAbsTo x 2))).take
        ((leftPad '0' 3 (natDigitChars (roundAbsTo x 2))).length - 2)))
    ((leftPad '0' 3 (natDigitChars (roundAbsTo x 2))).drop
      ((leftPad '0' 3 (natDigitChars (roundAbsTo x 2))).length - 2))
    ['%'] hd (by decide) (by decide)
  have hlen : ((leftPad '0' 3 (natDigitChars (roundAbsTo x 2))).drop
      ((leftPad '0' 3 (natDigitChars (roundAbsTo x 2))).length - 2)).length = 2 := by
    rw [List.length_drop, length_leftPad]
    omega
  have heq : formatPercentageL x =
      ((if 0 ≤ x then ['+'] else []) ++ ((if x < 0 then ['-'] else []) ++
        (leftPad '0' 3 (natDigitChars (roundAbsTo x 2))).take
          ((leftPad '0' 3 (natDigitChars (roundAbsTo x 2))).length - 2))) ++
      '.' :: ((leftPad '0' 3 (natDigitChars (roundAbsTo x 2))).drop
        ((leftPad '0' 3 (natDigitChars (roundAbsTo x 2))).length - 2) ++ ['%']) := by
    simp [formatPercentageL, toFixedL, fixedRender, List.append_assoc]
  rw [heq, hshape, hlen]

/-! ## Claim theorems: formatters -/

/-- C3: for every price `p ≥ 1`, `formatPrice` renders a currency string
(leading `$`) with exactly 2 fractional digits, and for `0 ≤ p < 1` a
currency string with exactly 6 fractional digits. -/
theorem formatPrice_fraction_digits (p : ℚ) (hp : 0 ≤ p) :
    (formatPrice p).data.head? = some '$' ∧
    fracDigitCount (formatPrice p).data = if 1 ≤ p then 2 else 6 := by
  have hneg : ¬ p < 0 := not_lt.mpr hp
  by_cases h1 : 1 ≤ p
  · refine ⟨?_, ?_⟩
    · simp [formatPrice, if_pos h1, currencyL, currencyRender, if_neg hneg, String.mk]
    · have hdata : (formatPrice p).data = currencyL p 2 := by
        simp [formatPrice, if_pos h1]
      rw [hdata, fracDigitCount_currencyL, if_pos h1]
  · refine ⟨?_, ?_⟩
    · simp [formatPrice, if_neg h1, currencyL, currencyRender, if_neg hneg, String.mk]
    · have hdata : (formatPrice p).data = currencyL p 6 := by
        simp [formatPrice, if_neg h1]
      rw [hdata, fracDigitCount_currencyL, if_neg h1]

/-- C3 witness: `formatPrice` at the concrete prices 2 and 1/2. -/
theorem formatPrice_fraction_digits_witness :
    ((formatPrice 2).data.head? = some '$' ∧
      fracDigitCount (formatPrice 2).data = if (1 : ℚ) ≤ 2 then 2 else 6) ∧
    ((formatPrice (1/2)).data.head? = some '$' ∧
      fracDigitCount (formatPrice (1/2)).data = if (1 : ℚ) ≤ 1/2 then 2 else 6) :=
  ⟨formatPrice_fraction_digits 2 (by norm_num),
   formatPrice_fraction_digits (1/2) (by norm_num)⟩

/-- C4: `formatPercentage x` begins with `'+'` iff `x ≥ 0` and otherwise
begins with `'-'`, and always has exactly 2 fractional digits. -/
theorem formatPercentage_sign_digits (x : ℚ) :
    (formatPercentage x).data.head? = some (if 0 ≤ x then '+' else '-') ∧
    fracDigitCount (formatPercentage x).data = 2 := by
  refine ⟨?_, fracDigitCount_formatPercentageL x⟩
  by_cases h : 0 ≤ x
  · simp [formatPercentage, formatPercentageL, if_pos h, String.mk]
  · have hlt : x < 0 := not_le.mp h
    simp [formatPercentage, formatPercentageL, toFixedL, if_neg h, if_pos hlt, String.mk]

/-- C5: `formatLargeNumber` tests the thresholds 1e12, 1e9, 1e6, 1e3 in
descending order, divides by the first matching threshold and renders the
quotient with `toFixed(1)` suffixed by `T`, `B`, `M` or `K`; below 1e3 it
renders a grouped plain number (`toLocaleString`). Concretely
1,500,000,000 ↦ "1.5B", 2,300,000,000,000 ↦ "2.3T", 999 ↦ "999". -/
theorem formatLargeNumber_thresholds :
    (∀ n : ℚ, 1e12 ≤ n →
      formatLargeNumber n = String.mk (toFixedL (n / 1e12) 1 ++ ['T'])) ∧
    (∀ n : ℚ, 1e9 ≤ n → n < 1e12 →
      formatLargeNumber n = String.mk (toFixedL (n / 1e9) 1 ++ ['B'])) ∧
    (∀ n : ℚ, 1e6 ≤ n → n < 1e9 →
      formatLargeNumber n = String.mk (toFixedL (n / 1e6) 1 ++ ['M'])) ∧
    (∀ n : ℚ, 1e3 ≤ n → n < 1e6 →
      formatLargeNumber n = String.mk (toFixedL (n / 1e3) 1 ++ ['K'])) ∧
    (∀ n : ℚ, n < 1e3 → formatLargeNumber n = String.mk (toLocaleStringL n)) ∧
    formatLargeNumber 1500000000 = "1.5B" ∧
    formatLargeNumber 2300000000000 = "2.3T" ∧
    formatLargeNumber 999 = "999" := by
  refine ⟨?_, ?_, ?_, ?_, ?_, ?_, ?_, ?_⟩
  · intro n h
    simp [formatLargeNumber, formatLargeNumberL, h]
  · intro n h h2
    have h1 : ¬ (1e12 : ℚ) ≤ n := not_le.mpr h2
    simp [formatLargeNumber, formatLargeNumberL, h, h1]
  · intro n h h2
    have h1 : ¬ (1e12 : ℚ) ≤ n := not_le.mpr (lt_of_lt_of_le h2 (by norm_num))
    have h1b : ¬ (1e9 : ℚ) ≤ n := not_le.mpr h2
    simp [formatLargeNumber, formatLargeNumberL, h, h1, h1b]
  · intro n h h2
    have h1 : ¬ (1e12 : ℚ) ≤ n := not_le.mpr (lt_of_lt_of_le h2 (by norm_num))
    have h1b : ¬ (1e9 : ℚ) ≤ n := not_le.mpr (lt_of_lt_of_le h2 (by norm_num))
    have h1c : ¬ (1e6 : ℚ) ≤ n := not_le.mpr h2
    simp [formatLargeNumber, formatLargeNumberL, h, h1, h1b, h1c]
  · intro n h
    have h1 : ¬ (1e12 : ℚ) ≤ n := not_le.mpr (lt_of_lt_of_le h (by norm_num))
    have h1b : ¬ (1e9 : ℚ) ≤ n := not_le.mpr (lt_of_lt_of_le h (by norm_num))
    have h1c : ¬ (1e6 : ℚ) ≤ n := not_le.mpr (lt_of_lt_of_le h (by norm_num))
    have h1d : ¬ (1e3 : ℚ) ≤ n := not_le.mpr h
    simp [formatLargeNumber, formatLargeNumberL, h1, h1b, h1c, h1d]
  · have h : roundAbsTo (1500000000/1e9) 1 = 15 := by
      norm_num [roundAbsTo, abs_of_nonneg] <;> rfl
    have h1 : ¬ ((1e12 : ℚ) ≤ 1500000000) := by norm_num
    have h2 : (1e9 : ℚ) ≤ 1500000000 := by norm_num
    have h3 : ¬ ((1500000000/1e9 : ℚ) < 0) := by norm_num
    simp only [formatLargeNumber, formatLargeNumberL, toFixedL,
      if_neg h1, if_pos h2, if_neg h3, h]
    decide
  · have h : roundAbsTo (2300000000000/1e12) 1 = 23 := by
      norm_num [roundAbsTo, abs_of_nonneg] <;> rfl
    have h1 : (1e12 : ℚ) ≤ 2300000000000 := by norm_num
    have h3 : ¬ ((2300000000000/1e12 : ℚ) < 0) := by norm_num
    simp only [formatLargeNumber, formatLargeNumberL, toFixedL, if_pos h1, if_neg h3, h]
    decide
  · have h : roundAbsTo 999 3 = 999000 := by
      norm_num [roundAbsTo, abs_of_nonneg] <;> rfl
    have h1 : ¬ ((1e12 : ℚ) ≤ 999) := by norm_num
    have h2 : ¬ ((1e9 : ℚ) ≤ 999) := by norm_num
    have h3 : ¬ ((1e6 : ℚ) ≤ 999) := by norm_num
    have h4 : ¬ ((1e3 : ℚ) ≤ 999) := by norm_num
    have h5 : ¬ ((999 : ℚ) < 0) := by norm_num
    simp only [formatLargeNumber, formatLargeNumberL, toLocaleStringL,
      if_neg h1, if_neg h2, if_neg h3, if_neg h4, if_neg h5, h]
    decide

/-- C5 witness: the 1e12 branch applied at the concrete input 2·10¹². -/
theorem formatLargeNumber_thresholds_witness :
    formatLargeNumber 2000000000000 =
      String.mk (toFixedL ((2000000000000 : ℚ) / 1e12) 1 ++ ['T']) :=
  formatLargeNumber_thresholds.1 2000000000000 (by norm_num)

/-! ## Lemmas about the refresh cycle -/

lemma mem_jsSetDedupAux : ∀ (l seen : List String) (a : String),
    a ∈ jsSetDedupAux seen l ↔ a ∈ l ∧ a ∉ seen := by
  intro l
  induction l with
  | nil =>
    intro seen a
    simp [jsSetDedupAux]
  | cons x xs ih =>
    intro seen a
    simp only [jsSetDedupAux]
    by_cases hx : x ∈ seen
    · rw [if_pos hx, ih]
      simp only [List.mem_cons]
      constructor
      · rintro ⟨h1, h2⟩
        exact ⟨Or.inr h1, h2⟩
      · rintro ⟨h1 | h1, h2⟩
        · exact absurd (h1 ▸ hx) h2
        · exact ⟨h1, h2⟩
    · rw [if_neg hx]
      constructor
      · intro hm
        rcases List.mem_cons.mp hm with rfl | hm
        · exact ⟨List.mem_cons_self _ _, hx⟩
        · obtain ⟨h1, h2⟩ := (ih _ _).mp hm
          simp only [List.mem_cons] at h2
          push_neg at h2
          exact ⟨List.mem_cons_of_mem _ h1, h2.2⟩
      · rintro ⟨h1, h2⟩
        rcases List.mem_cons.mp h1 with rfl | h1
        · exact List.mem_cons_self _ _
        · by_cases hax : a = x
          · exact hax ▸ List.mem_cons_self _ _
          · refine List.mem_cons_of_mem _ ((ih _ _).mpr ⟨h1, ?_⟩)
            simp [List.mem_cons, hax, h2]

lemma nodup_jsSetDedupAux : ∀ (l seen : List String), (jsSetDedupAux seen l).Nodup := by
  intro l
  induction l with
  | nil =>
    intro seen
    simp [jsSetDedupAux]
  | cons x xs ih =>
    intro seen
    simp only [jsSetDedupAux]
    by_cases hx : x ∈ seen
    · rw [if_pos hx]
      exact ih _
    · rw [if_neg hx]
      refine List.nodup_cons.mpr ⟨?_, ih _⟩
      intro hmem
      exact ((mem_jsSetDedupAux _ _ _).mp hmem).2 (List.mem_cons_self _ _)

lemma mem_jsSetDedup (l : List String) (a : String) : a ∈ jsSetDedup l ↔ a ∈ l := by
  rw [jsSetDedup, mem_jsSetDedupAux]
  simp

lemma nodup_jsSetDedup (l : List String) : (jsSetDedup l).Nodup :=
  nodup_jsSetDedupAux l []

/-! ## Claim theorems: refresh cycle -/

/-- C6: every refresh cycle hands the fetcher the de-duplicated coin-id
set collected from the tagged elements (no duplicates, same members); on a
document whose tagged elements carry ids bitcoin, bitcoin, ethereum, the
fetcher receives exactly ["bitcoin", "ethereum"]. -/
theorem updatePrices_fetches_dedup :
    (∀ (d : Dom) (fetch : List String → Except Unit (List (String × Quote))),
      (∃ e ∈ d.elems, e.coinId.isSome) →
      (updatePrices fetch d).2 = some (jsSetDedup (collectCoinIds d.elems)) ∧
      (jsSetDedup (collectCoinIds d.elems)).Nodup ∧
      (∀ s, s ∈ jsSetDedup (collectCoinIds d.elems) ↔ s ∈ collectCoinIds d.elems)) ∧
    (updatePrices (fun _ => Except.error ())
      ⟨[⟨some "bitcoin", [], "", 0⟩, ⟨some "bitcoin", [], "", 0⟩,
        ⟨some "ethereum", [], "", 0⟩], []⟩).2 = some ["bitcoin", "ethereum"] := by
  constructor
  · intro d fetch hex
    obtain ⟨e, he, hsome⟩ := hex
    have hne : (d.elems.filter (fun e => e.coinId.isSome)).length ≠ 0 := by
      intro hlen
      rw [List.length_eq_zero] at hlen
      have : e ∈ d.elems.filter (fun e => e.coinId.isSome) :=
        List.mem_filter.mpr ⟨he, hsome⟩
      rw [hlen] at this
      exact absurd this (List.not_mem_nil e)
    refine ⟨?_, nodup_jsSetDedup _, fun s => mem_jsSetDedup _ s⟩
    simp only [updatePrices, collectCoinIds, if_neg hne]
    cases fetch (jsSetDedup ((d.elems.filter (fun e => e.coinId.isSome)).filterMap
        (fun e => e.coinId))) <;> rfl
  · rfl

/-- C10: when no element carries a coin id, `updatePrices` is a complete
no-op: the fetcher is not invoked, no marker is added, no text changes,
no notification is raised. -/
theorem updatePrices_noop_without_tagged
    (d : Dom) (fetch : List String → Except Unit (List (String × Quote)))
    (h : ∀ e ∈ d.elems, e.coinId = none) :
    updatePrices fetch d = (d, none) := by
  have hf : d.elems.filter (fun e => e.coinId.isSome) = [] := by
    rw [List.filter_eq_nil_iff]
    intro e he
    simp [h e he]
  simp [updatePrices, hf]

/-- C10 witness: a document with one untagged element and an empty one. -/
theorem updatePrices_noop_without_tagged_witness :
    updatePrices (fun _ => Except.error ())
      ⟨[⟨none, ["price-display"], "x", 0⟩], []⟩ =
      (⟨[⟨none, ["price-display"], "x", 0⟩], []⟩, none) :=
  updatePrices_noop_without_tagged _ _ (by decide)

/-- C1: when the fetch rejects during a cycle over a document whose
elements carry no stale markers, the markers attached before the fetch
(one per tagged element) are all gone after the cycle, and exactly one
error notification is raised. -/
theorem updatePrices_failure_cleanup
    (d : Dom) (fetch : List String → Except Unit (List (String × Quote)))
    (hclean : ∀ e ∈ d.elems, e.loadingMarkers = 0)
    (hex : ∃ e ∈ d.elems, e.coinId.isSome)
    (hfail : fetch (jsSetDedup (collectCoinIds d.elems)) = Except.error ()) :
    (∀ e ∈ showLoadingIndicators d.elems, e.coinId.isSome = true → e.loadingMarkers = 1) ∧
    (∀ e ∈ (updatePrices fetch d).1.elems, e.loadingMarkers = 0) ∧
    (updatePrices fetch d).1.notifications =
      d.notifications ++ [⟨"Failed to update prices", "error", 3000⟩] := by
  obtain ⟨e0, he0, hsome0⟩ := hex
  have hne : (d.elems.filter (fun e => e.coinId.isSome)).length ≠ 0 := by
    intro hlen
    rw [List.length_eq_zero] at hlen
    have : e0 ∈ d.elems.filter (fun e => e.coinId.isSome) :=
      List.mem_filter.mpr ⟨he0, hsome0⟩
    rw [hlen] at this
    exact absurd this (List.not_mem_nil e0)
  have hred : updatePrices fetch d =
      ({ elems := hideLoadingIndicators (showLoadingIndicators d.elems),
         notifications := d.notifications ++ [⟨"Failed to update prices", "error", 3000⟩] },
        some (jsSetDedup (collectCoinIds d.elems))) := by
    simp only [updatePrices, if_neg hne]
    rw [show ((d.elems.filter (fun e => e.coinId.isSome)).filterMap (fun e => e.coinId))
        = collectCoinIds d.elems from rfl, hfail]
  refine ⟨?_, ?_, ?_⟩
  · intro e he hsome
    obtain ⟨a, ha, rfl⟩ := List.mem_map.mp he
    by_cases h : a.coinId.isSome
    · simp [h, hclean a ha]
    · rw [if_neg h] at hsome
      exact absurd hsome h
  · intro e he
    rw [hred] at he
    simp only [hideLoadingIndicators, showLoadingIndicators] at he
    rw [List.map_map] at he
    obtain ⟨a, ha, rfl⟩ := List.mem_map.mp he
    by_cases h : a.coinId.isSome <;> simp [h, hclean a ha]
  · rw [hred]

/-- C6 witness: the bitcoin/bitcoin/ethereum document. -/
theorem updatePrices_fetches_dedup_witness :
    (updatePrices (fun _ => Except.error ())
        (⟨[⟨some "bitcoin", [], "", 0⟩, ⟨some "bitcoin", [], "", 0⟩,
          ⟨some "ethereum", [], "", 0⟩], []⟩ : Dom)).2 =
      some (jsSetDedup (collectCoinIds
        (⟨[⟨some "bitcoin", [], "", 0⟩, ⟨some "bitcoin", [], "", 0⟩,
          ⟨some "ethereum", [], "", 0⟩], []⟩ : Dom).elems)) ∧
    (jsSetDedup (collectCoinIds
      (⟨[⟨some "bitcoin", [], "", 0⟩, ⟨some "bitcoin", [], "", 0⟩,
        ⟨some "ethereum", [], "", 0⟩], []⟩ : Dom).elems)).Nodup ∧
    (∀ s, s ∈ jsSetDedup (collectCoinIds
        (⟨[⟨some "bitcoin", [], "", 0⟩, ⟨some "bitcoin", [], "", 0⟩,
          ⟨some "ethereum", [], "", 0⟩], []⟩ : Dom).elems) ↔
      s ∈ collectCoinIds
        (⟨[⟨some "bitcoin", [], "", 0⟩, ⟨some "bitcoin", [], "", 0⟩,
          ⟨some "ethereum", [], "", 0⟩], []⟩ : Dom).elems) :=
  updatePrices_fetches_dedup.1 _ _ ⟨⟨some "bitcoin", [], "", 0⟩, by decide⟩

/-- C1 witness: one clean price-display element tagged bitcoin, with a
rejecting fetcher. -/
theorem updatePrices_failure_cleanup_witness :
    (∀ e ∈ showLoadingIndicators
        (⟨[⟨some "bitcoin", ["price-display"], "", 0⟩], []⟩ : Dom).elems,
      e.coinId.isSome = true → e.loadingMarkers = 1) ∧
    (∀ e ∈ (updatePrices (fun _ => Except.error ())
        (⟨[⟨some "bitcoin", ["price-display"], "", 0⟩], []⟩ : Dom)).1.elems,
      e.loadingMarkers = 0) ∧
    (updatePrices (fun _ => Except.error ())
        (⟨[⟨some "bitcoin", ["price-display"], "", 0⟩], []⟩ : Dom)).1.notifications =
      (⟨[⟨some "bitcoin", ["price-display"], "", 0⟩], []⟩ : Dom).notifications ++
        [⟨"Failed to update prices", "error", 3000⟩] :=
  updatePrices_failure_cleanup _ _ (by decide)
    ⟨⟨some "bitcoin", ["price-display"], "", 0⟩, by decide⟩ rfl

/-! ## Lemmas for renderer idempotence -/

lemma applyQuote_coinId (prices : List (String × Quote)) (e : Elem) :
    (applyQuoteToElem prices e).coinId = e.coinId := by
  cases he : e.coinId with
  | none => simp [applyQuoteToElem, he]
  | some cid =>
    simp only [applyQuoteToElem, he]
    cases lookupQuote prices cid with
    | none => exact he
    | some q =>
      by_cases h1 : "price-display" ∈ e.classes <;>
        by_cases h2 : "change-display" ∈ e.classes <;> simp [h1, h2, he]

lemma mem_removeFirstChangeClass (a : String) (ha1 : a ≠ "text-success")
    (ha2 : a ≠ "text-danger") :
    ∀ l, a ∈ removeFirstChangeClass l ↔ a ∈ l := by
  intro l
  induction l with
  | nil => simp [removeFirstChangeClass]
  | cons c rest ih =>
    simp only [removeFirstChangeClass]
    split
    case isTrue h =>
      constructor
      · exact fun hm => List.mem_cons_of_mem _ hm
      · intro hm
        rcases List.mem_cons.mp hm with rfl | hm
        · rcases h with h | h
          · exact absurd h ha1
          · exact absurd h ha2
        · exact hm
    case isFalse h =>
      simp [List.mem_cons, ih]

lemma mem_addClass (a c : String) (l : List String) :
    a ∈ addClass c l ↔ a ∈ l ∨ a = c := by
  by_cases h : c ∈ l
  · simp only [addClass, if_pos h]
    constructor
    · exact Or.inl
    · rintro (h1 | rfl)
      · exact h1
      · exact h
  · simp [addClass, if_neg h, List.mem_append]

lemma applyQuote_class_mem (prices : List (String × Quote)) (e : Elem) (a : String)
    (ha1 : a ≠ "text-success") (ha2 : a ≠ "text-danger") :
    a ∈ (applyQuoteToElem prices e).classes ↔ a ∈ e.classes := by
  cases he : e.coinId with
  | none => simp [applyQuoteToElem, he]
  | some cid =>
    simp only [applyQuoteToElem, he]
    cases lookupQuote prices cid with
    | none => exact Iff.rfl
    | some q =>
      by_cases h1 : "price-display" ∈ e.classes <;>
        by_cases h2 : "change-display" ∈ e.classes <;>
        by_cases hch : 0 ≤ q.usd24hChange <;>
        simp [h1, h2, hch, mem_addClass, mem_removeFirstChangeClass a ha1 ha2,
          ha1, ha2]

lemma applyQuote_text (prices : List (String × Quote)) (e : Elem) (cid : String)
    (q : Quote) (he : e.coinId = some cid) (hq : lookupQuote prices cid = some q) :
    (applyQuoteToElem prices e).text =
      if "change-display" ∈ e.classes then formatPercentage q.usd24hChange
      else if "price-display" ∈ e.classes then formatPrice q.usd
      else e.text := by
  simp only [applyQuoteToElem, he, hq]
  by_cases h1 : "price-display" ∈ e.classes <;>
    by_cases h2 : "change-display" ∈ e.classes <;> simp [h1, h2]

lemma applyQuote_text_idem (prices : List (String × Quote)) (e : Elem) :
    (applyQuoteToElem prices (applyQuoteToElem prices e)).text =
      (applyQuoteToElem prices e).text := by
  cases he : e.coinId with
  | none =>
    have h : applyQuoteToElem prices e = e := by simp [applyQuoteToElem, he]
    rw [h, h]
  | some cid =>
    cases hq : lookupQuote prices cid with
    | none =>
      have h : applyQuoteToElem prices e = e := by simp [applyQuoteToElem, he, hq]
      rw [h, h]
    | some q =>
      have hcid : (applyQuoteToElem prices e).coinId = some cid :=
        (applyQuote_coinId prices e).trans he
      have hp' : "price-display" ∈ (applyQuoteToElem prices e).classes ↔
          "price-display" ∈ e.classes :=
        applyQuote_class_mem prices e _ (by decide) (by decide)
      have hc' : "change-display" ∈ (applyQuoteToElem prices e).classes ↔
          "change-display" ∈ e.classes :=
        applyQuote_class_mem prices e _ (by decide) (by decide)
      rw [applyQuote_text prices (applyQuoteToElem prices e) cid q hcid hq,
        applyQuote_text prices e cid q he hq]
      by_cases h1 : "price-display" ∈ e.classes <;>
        by_cases h2 : "change-display" ∈ e.classes <;>
        simp only [hp', hc', h1, h2, if_true, if_false, iff_true, iff_false] <;>
        simp [h1, h2, applyQuote_text prices e cid q he hq]

/-- C8: applying the same quote mapping twice renders the same text on
every element as applying it once (the renderer overwrites, it does not
accumulate). -/
theorem updatePriceElements_idempotent_text
    (prices : List (String × Quote)) (elems : List Elem) :
    (updatePriceElements prices (updatePriceElements prices elems)).map (fun e => e.text) =
      (updatePriceElements prices elems).map (fun e => e.text) := by
  induction elems with
  | nil => rfl
  | cons e rest ih =>
    simp only [updatePriceElements, List.map_cons] at ih ⊢
    rw [applyQuote_text_idem]
    exact congrArg _ ih

/-! ## Ticker lemmas -/

example : pathAllowed "/dashboard" = true := by decide
example : pathAllowed "/portfolio/view" = true := by decide
example : pathAllowed "/" = false := by decide

lemma clearHandle_active (s : TickerState)
    (h1 : s.active = [] ∨ ∃ h, s.handle = some h ∧ s.active = [h]) :
    (clearHandle s).active = [] := by
  rcases h1 with ha | ⟨h, hh, ha⟩
  · cases hs : s.handle <;> simp [clearHandle, hs, clearIntervalJS, ha]
  · simp [clearHandle, hh, clearIntervalJS, ha, List.erase_cons_head]

lemma clearHandle_hidden (s : TickerState) : (clearHandle s).hidden = s.hidden := by
  cases hs : s.handle <;> simp [clearHandle, hs, clearIntervalJS]

lemma clearHandle_path (s : TickerState) : (clearHandle s).path = s.path := by
  cases hs : s.handle <;> simp [clearHandle, hs, clearIntervalJS]

lemma startPriceUpdates_hidden (s : TickerState) :
    (startPriceUpdates s).hidden = s.hidden := by
  unfold startPriceUpdates
  split <;> rfl

lemma startPriceUpdates_path (s : TickerState) :
    (startPriceUpdates s).path = s.path := by
  unfold startPriceUpdates
  split <;> rfl

lemma tickerInv_start (s : TickerState) (ha : s.active = []) (hh : s.hidden = false) :
    TickerInv (startPriceUpdates s) := by
  unfold startPriceUpdates TickerInv
  split
  · exact ⟨Or.inr ⟨s.nextId, rfl, by simp [ha]⟩, by simp [hh]⟩
  · exact ⟨Or.inl ha, fun _ => ha⟩

lemma tickerInv_clearHandle (s : TickerState)
    (h1 : s.active = [] ∨ ∃ h, s.handle = some h ∧ s.active = [h]) :
    TickerInv (clearHandle s) :=
  ⟨Or.inl (clearHandle_active s h1), fun _ => clearHandle_active s h1⟩

lemma tickerInv_run : ∀ (evs : List PageEv) (s : TickerState),
    TickerInv s → properFrom s.hidden evs = true → TickerInv (runEvents s evs) := by
  intro evs
  induction evs with
  | nil => intro s hs _; exact hs
  | cons e rest ih =>
    intro s hs hp
    cases e with
    | domReady => simp [properFrom] at hp
    | visChange b =>
      simp only [properFrom, Bool.and_eq_true, beq_iff_eq] at hp
      obtain ⟨hb, hrest⟩ := hp
      show TickerInv (runEvents (stepEv s (PageEv.visChange b)) rest)
      cases hvis : s.hidden with
      | true =>
        have hbf : b = false := by rw [hb, hvis]; rfl
        subst hbf
        have ha : s.active = [] := hs.2 hvis
        simp only [stepEv, if_neg (by simp : ¬ (false = true))]
        refine ih _ (tickerInv_start _ ha rfl) ?_
        rw [startPriceUpdates_hidden]
        exact hrest
      | false =>
        have hbt : b = true := by rw [hb, hvis]; rfl
        subst hbt
        simp only [stepEv]
        rw [if_pos trivial]
        have hinv1 : ({ s with hidden := true } : TickerState).active = [] ∨
            ∃ h, ({ s with hidden := true } : TickerState).handle = some h ∧
              ({ s with hidden := true } : TickerState).active = [h] := hs.1
        refine ih _ (tickerInv_clearHandle _ hinv1) ?_
        rw [clearHandle_hidden]
        exact hrest
    | unload =>
      simp only [properFrom] at hp
      show TickerInv (runEvents (stepEv s PageEv.unload) rest)
      simp only [stepEv]
      refine ih _ (tickerInv_clearHandle _ hs.1) ?_
      rw [clearHandle_hidden]
      exact hp

/-- Proper runs from a page loaded while visible keep at most one
interval alive: the re-entrancy contract holds when every start happens
with no interval running. -/
theorem ticker_single_interval_of_proper (path : String) (evs : List PageEv)
    (hp : properFrom false evs = true) :
    (runEvents (stepEv (initState path false) PageEv.domReady) evs).active.length ≤ 1 := by
  have h0 : TickerInv (stepEv (initState path false) PageEv.domReady) := by
    simp only [stepEv]
    exact tickerInv_start _ rfl rfl
  have hhid : (stepEv (initState path false) PageEv.domReady).hidden = false := by
    simp only [stepEv]
    rw [startPriceUpdates_hidden]
    rfl
  have := tickerInv_run evs _ h0 (by rw [hhid]; exact hp)
  rcases this.1 with ha | ⟨h, _, ha⟩ <;> simp [ha]

lemma stepEv_inactive_disallowed (s : TickerState) (e : PageEv)
    (hpath : pathAllowed s.path = false) (ha : s.active = []) :
    (stepEv s e).active = [] ∧ (stepEv s e).path = s.path := by
  cases e with
  | domReady =>
    simp [stepEv, startPriceUpdates, hpath, ha]
  | visChange b =>
    cases b with
    | true =>
      refine ⟨?_, ?_⟩
      · simp only [stepEv]
        rw [if_pos trivial]
        exact clearHandle_active _ (Or.inl ha)
      · simp only [stepEv]
        rw [if_pos trivial, clearHandle_path]
    | false =>
      simp [stepEv, startPriceUpdates, hpath, ha]
  | unload =>
    refine ⟨?_, ?_⟩
    · simp only [stepEv]
      exact clearHandle_active _ (Or.inl ha)
    · simp only [stepEv]
      rw [clearHandle_path]

/-- On a route outside the allow-list the ticker is never active, whatever
events occur. -/
theorem ticker_inactive_on_disallowed_route (path : String)
    (hpath : pathAllowed path = false) (hidden : Bool) (evs : List PageEv) :
    (runEvents (initState path hidden) evs).active = [] := by
  suffices h : ∀ (evs : List PageEv) (s : TickerState),
      pathAllowed s.path = false → s.active = [] →
      (runEvents s evs).active = [] by
    exact h evs (initState path hidden) hpath rfl
  intro evs
  induction evs with
  | nil => intro s _ ha; exact ha
  | cons e rest ih =>
    intro s hp ha
    obtain ⟨h1, h2⟩ := stepEv_inactive_disallowed s e hp ha
    exact ih (stepEv s e) (h2 ▸ hp) h1

/-! ## Claim theorems: ticker -/

/-- C2 evidence: a page loaded in a hidden background tab on /dashboard
runs `startPriceUpdates` at `DOMContentLoaded`; when the tab becomes
visible the `visibilitychange` handler calls `startPriceUpdates` again
without clearing, leaving two live intervals (the first one leaked,
unreferenced by the handle). -/
theorem startPriceUpdates_leaks_duplicate_interval :
    (runEvents (initState "/dashboard" true)
      [PageEv.domReady, PageEv.visChange false]).active = [1, 2] ∧
    (runEvents (initState "/dashboard" true)
      [PageEv.domReady, PageEv.visChange false]).handle = some 2 := by
  decide

/-- C7 evidence: continuing the duplicate-interval run with a hide event
clears only the handle's interval; the leaked interval keeps firing while
the page is hidden, so the ticker does not stop within one cycle of the
page becoming hidden. -/
theorem ticker_keeps_firing_while_hidden :
    (runEvents (initState "/dashboard" true)
      [PageEv.domReady, PageEv.visChange false, PageEv.visChange true]).hidden = true ∧
    (runEvents (initState "/dashboard" true)
      [PageEv.domReady, PageEv.visChange false, PageEv.visChange true]).active = [1] := by
  decide

/-! ## Claim theorems: notifier -/

/-- C9: `showNotification` appends the banner and schedules its removal
at `now + duration` (3000 for the all-defaults call); firing the
scheduled callback removes exactly that banner; and the callback never
faults, even when the banner is already gone. -/
theorem showNotification_banner_lifecycle :
    (∀ (s : NotifSys) (msg ty : String) (dur : ℕ),
      (showNotification msg ty dur s).banners = s.banners ++ [(s.nextId, ⟨msg, ty⟩)] ∧
      (showNotification msg ty dur s).timers = s.timers ++ [(s.now + dur, s.nextId)]) ∧
    (∀ (msg : String) (s : NotifSys),
      (showNotificationDefault msg s).timers = s.timers ++ [(s.now + 3000, s.nextId)]) ∧
    (∀ (s : NotifSys) (msg ty : String) (dur : ℕ),
      (∀ b ∈ s.banners, b.1 ≠ s.nextId) →
      notificationTimerFire s.nextId (showNotification msg ty dur s).banners =
        Except.ok s.banners) ∧
    (∀ (id : ℕ) (banners : List (ℕ × Banner)),
      (notificationTimerFire id banners).isOk = true) := by
  refine ⟨fun s msg ty dur => ⟨rfl, rfl⟩, fun msg s => rfl, ?_, ?_⟩
  · intro s msg ty dur hfresh
    have hany : ((showNotification msg ty dur s).banners).any
        (fun b => b.1 = s.nextId) = true := by
      simp [showNotification]
    simp only [notificationTimerFire, domRemoveBanner, if_pos hany]
    congr 1
    simp only [showNotification, List.filter_append]
    rw [List.filter_eq_self.mpr (by
      intro b hb
      simpa using hfresh b hb)]
    simp
  · intro id banners
    simp only [notificationTimerFire, domRemoveBanner]
    split
    case isTrue h => rfl
    case isFalse h => rfl

/-- C9 witness: firing the freshly scheduled timer on an empty notifier
removes the inserted banner. -/
theorem showNotification_banner_lifecycle_witness :
    notificationTimerFire (⟨0, 1, [], []⟩ : NotifSys).nextId
      (showNotification "Failed to update prices" "error" 3000
        (⟨0, 1, [], []⟩ : NotifSys)).banners =
      Except.ok (⟨0, 1, [], []⟩ : NotifSys).banners :=
  showNotification_banner_lifecycle.2.2.1 ⟨0, 1, [], []⟩ "Failed to update prices"
    "error" 3000 (by decide)

example : formatPrice (123456/100) = "$1,234.56" := by
  have h : roundAbsTo (123456/100) 2 = 123456 := by
    norm_num [roundAbsTo, abs_of_nonneg] <;> rfl
  have h1 : (1 : ℚ) ≤ 123456/100 := by norm_num
  have h2 : ¬ ((123456/100 : ℚ) < 0) := by norm_num
  simp only [formatPrice, currencyL, if_pos h1, if_neg h2, h]
  decide

example : formatPrice (1/2) = "$0.500000" := by
  have h : roundAbsTo (1/2) 6 = 500000 := by
    norm_num [roundAbsTo, abs_of_nonneg] <;> rfl
  have h1 : ¬ ((1 : ℚ) ≤ 1/2) := by norm_num
  have h2 : ¬ ((1/2 : ℚ) < 0) := by norm_num
  simp only [formatPrice, currencyL, if_neg h1, if_neg h2, h]
  decide

example : formatPercentage 0 = "+0.00%" := by
  have h : roundAbsTo 0 2 = 0 := by
    norm_num [roundAbsTo, abs_of_nonneg] <;> rfl
  have h1 : (0 : ℚ) ≤ 0 := le_refl 0
  have h2 : ¬ ((0 : ℚ) < 0) := by norm_num
  simp only [formatPercentage, formatPercentageL, toFixedL, if_pos h1, if_neg h2, h]
  decide

example : formatPercentage (-21/4) = "-5.25%" := by
  have h : roundAbsTo (-21/4) 2 = 525 := by
    norm_num [roundAbsTo, abs_of_nonpos] <;> rfl
  have h1 : ¬ ((0 : ℚ) ≤ -21/4) := by norm_num
  have h2 : ((-21/4 : ℚ) < 0) := by norm_num
  simp only [formatPercentage, formatPercentageL, toFixedL, if_neg h1, if_pos h2, h]
  decide

example : formatLargeNumber 1500000000 = "1.5B" := by
  have h : roundAbsTo (1500000000/1e9) 1 = 15 := by
    norm_num [roundAbsTo, abs_of_nonneg] <;> rfl
  have h1 : ¬ ((1e12 : ℚ) ≤ 1500000000) := by norm_num
  have h2 : (1e9 : ℚ) ≤ 1500000000 := by norm_num
  have h3 : ¬ ((1500000000/1e9 : ℚ) < 0) := by norm_num
  simp only [formatLargeNumber, formatLargeNumberL, toFixedL, if_neg h1, if_pos h2, if_neg h3, h]
  decide

example : formatLargeNumber 999 = "999" := by
  have h : roundAbsTo 999 3 = 999000 := by
    norm_num [roundAbsTo, abs_of_nonneg] <;> rfl
  have h1 : ¬ ((1e12 : ℚ) ≤ 999) := by norm_num
  have h2 : ¬ ((1e9 : ℚ) ≤ 999) := by norm_num
  have h3 : ¬ ((1e6 : ℚ) ≤ 999) := by norm_num
  have h4 : ¬ ((1e3 : ℚ) ≤ 999) := by norm_num
  have h5 : ¬ ((999 : ℚ) < 0) := by norm_num
  simp only [formatLargeNumber, formatLargeNumberL, toLocaleStringL,
    if_neg h1, if_neg h2, if_neg h3, if_neg h4, if_neg h5, h]
  decide

example : formatLargeNumber 2300000000000 = "2.3T" := by
  have h : roundAbsTo (2300000000000/1e12) 1 = 23 := by
    norm_num [roundAbsTo, abs_of_nonneg] <;> rfl
  have h1 : (1e12 : ℚ) ≤ 2300000000000 := by norm_num
  have h3 : ¬ ((2300000000000/1e12 : ℚ) < 0) := by norm_num
  simp only [formatLargeNumber, formatLargeNumberL, toFixedL, if_pos h1, if_neg h3, h]
  decide

end CryptoDash
